import Mathlib

/-!
Shallow embedding of the dicescript core value model and operator semantics
(src/types.go).

Modelling conventions:
- Go `int64` is modelled as `ℤ`, with explicit two's-complement wrap-around
  (`wrap64`) applied at the arithmetic operations where Go overflow can occur.
- Go `float64` is modelled as `ℚ` (exact arithmetic; IEEE rounding, NaN and
  infinities are abstracted away).
- Go strings are byte sequences; the payload is modelled as `List Nat`
  (byte values; only concatenation, slicing and equality are used).
- Go heap pointers to `ArrayData` / `ComputedData` are modelled as indices
  ("refs") into an explicit `Store`, so that handle equality and shared
  in-place mutation are expressible exactly as in the Go code.
- An operator that sets `ctx.Error` and returns Go `nil` is modelled by the
  outcome `err e`; one that returns `nil` without setting the error (the
  fall-through `return nil` for unrecognized operand kinds) by `nores`; a Go
  runtime panic (e.g. `%` with zero divisor, `make` with negative length) by
  `crash`.
-/

namespace DiceScript

/-- Two's-complement wrap-around to the signed 64-bit range, modelling Go
`int64` overflow semantics. -/
def wrap64 (z : ℤ) : ℤ := (z + 2 ^ 63) % 2 ^ 64 - 2 ^ 63

/-- Truncation of a rational toward zero, modelling Go's `int64(x)` conversion
from `float64` on in-range values. -/
def ratTrunc (q : ℚ) : ℤ := q.num.tdiv (q.den : ℤ)

/-- Model of `math.Pow` on the rational model of float64. It is exact for
integer exponents (the only case whose value any claim inspects); for
fractional exponents it returns a dummy value, since only the kind (Float)
of the result matters to the specification claims. -/
def mathPow (a b : ℚ) : ℚ := if b.den = 1 then a ^ b.num else 0

/-- Tagged runtime value (Go `VMValue`). Container payloads (`*ArrayData`,
`*ComputedData`, `*FunctionData`, `*NativeFunctionData`) are heap handles in
Go and are modelled as refs into a `Store`. -/
inductive VMValue where
  | int (i : ℤ)
  | float (q : ℚ)
  | str (s : List Nat)
  | undefined
  | null
  | computed (ref : Nat)
  | arr (ref : Nat)
  | func (ref : Nat)
  | nfunc (ref : Nat)
  deriving DecidableEq

/-- Numeric type tag (Go `VMValueType` constants, src/types.go lines 27-37). -/
def VMValue.typeId : VMValue → Nat
  | .int _ => 0
  | .float _ => 1
  | .str _ => 2
  | .undefined => 3
  | .null => 4
  | .computed _ => 5
  | .arr _ => 6
  | .func _ => 8
  | .nfunc _ => 9

/-- True exactly on Float-tagged values. -/
def VMValue.isFloat : VMValue → Bool
  | .float _ => true
  | _ => false

/-- True exactly on Int- or Float-tagged values. -/
def VMValue.isNumeric : VMValue → Bool
  | .int _ => true
  | .float _ => true
  | _ => false

/-- Numeric reading of an Int or Float value, widening Int to the float
model (`float64(i)` in Go); 0 on non-numeric kinds. -/
def VMValue.numCast : VMValue → ℚ
  | .int i => (i : ℚ)
  | .float q => q
  | _ => 0

/-- Insertion-ordered string-keyed map. Modelled from the spec: the `ValueMap`
implementation is not under src/ (only src/types.go is); §4.5 specifies an
insertion-ordered map with `Put`/`Get`. `put` overwrites the first existing
binding in place, else appends. -/
structure ValueMap where
  entries : List (String × VMValue)
  deriving DecidableEq

/-- Replace the first binding of the key, else append (insertion order kept). -/
def putEntries : List (String × VMValue) → String → VMValue → List (String × VMValue)
  | [], k, v => [(k, v)]
  | e :: rest, k, v =>
    if e.1 = k then (k, v) :: rest else e :: putEntries rest k v

/-- Insert or overwrite a key (spec §4.5 `Put`). -/
def ValueMap.put (m : ValueMap) (k : String) (v : VMValue) : ValueMap :=
  ⟨putEntries m.entries k v⟩

/-- Look up a key (spec §4.5 `Get`); first binding wins. -/
def ValueMap.get (m : ValueMap) (k : String) : Option VMValue :=
  (m.entries.find? (fun e => e.1 = k)).map (·.2)

/-- Bytecode is produced and consumed only by the external parser, which is
out of scope (spec §1); its contents are never inspected here. -/
abbrev Bytecode := List Nat

/-- Payload of a Computed value (Go `ComputedData`, src/types.go lines
114-121): source expression, lazily created attribute map, cached bytecode. -/
structure ComputedData where
  Expr : String
  Attrs : Option ValueMap
  code : Option Bytecode
  deriving DecidableEq

/-- Payload of a user Function value (Go `FunctionData`, src/types.go lines
123-132). -/
structure FunctionData where
  Expr : String
  Name : String
  Params : List String
  code : Option Bytecode
  deriving DecidableEq

/-- Heap model: array payloads and computed payloads addressed by ref.
Allocation appends at the end (the fresh ref is the current length). -/
structure Store where
  arrays : List (List VMValue)
  computeds : List ComputedData
  deriving DecidableEq

/-- Allocate a fresh array (Go `VMValueNewArray`); the new ref is
`s.arrays.length`. -/
def Store.push (s : Store) (l : List VMValue) : Store :=
  { s with arrays := s.arrays ++ [l] }

/-- Error kinds, abstracting the human-readable Go error strings by call
site (spec §7). -/
inductive RErr where
  | divideByZero
  | arrayTooLarge
  | indexOutOfRange
  | typeMismatch
  deriving DecidableEq

/-- Outcome of a value operator: `ok v` returns a value with no error;
`err e` sets `ctx.Error` and returns nil; `nores` is the silent `return nil`
for unrecognized operand kinds; `crash` is a Go runtime panic. -/
inductive OpOutcome where
  | ok (v : VMValue)
  | err (e : RErr)
  | nores
  | crash
  deriving DecidableEq

/-- The context fields the value operators can observe (Go `Context.Flags`,
src/types.go lines 55-63; the operators in src/types.go read none of the
flags, but `IgnoreDiv0` is carried so that this independence is provable). -/
structure Ctx where
  ignoreDiv0 : Bool
  deriving DecidableEq

/-- Shallow clone (Go `Clone`, src/types.go lines 142-148): copies the tag and
the payload verbatim. For container kinds the payload is the heap handle
(here: the ref), so the clone aliases the same storage. On the mathematical
value this copy is the identity. -/
def Clone (v : VMValue) : VMValue := v

/-- Truthiness (Go `AsBool`, src/types.go lines 150-164). -/
def AsBool : VMValue → Bool
  | .int i => i != 0
  | .str s => s != []
  | .null => false
  | .undefined => false
  | _ => false

/-- Go `boolToVMValue` (src/types.go lines 448-454). -/
def boolToVM (b : Bool) : VMValue := .int (if b then 1 else 0)

/-- Repeat-array element construction (loop body of `ArrayRepeatTimesEx`,
src/types.go lines 933-937): element `i` is a clone of `List[i % len]`. -/
def repeatList (l : List VMValue) (n : Nat) : List VMValue :=
  (List.range n).map (fun i => Clone (l.getD (i % l.length) .undefined))

/-- Go `ArrayRepeatTimesEx` (src/types.go lines 921-941): `length` is the
int64 product of the array length and `times`; `> 512` errors with
ArrayTooLarge; a negative `length` makes `make([]*VMValue, length)` panic. -/
def ArrayRepeatTimesEx (_ctx : Ctx) (s : Store) (v times : VMValue) :
    Store × OpOutcome :=
  match times with
  | .int t =>
    match v with
    | .arr r =>
      match s.arrays.get? r with
      | some l =>
        let length := wrap64 ((l.length : ℤ) * t)
        if length > 512 then (s, .err .arrayTooLarge)
        else if length < 0 then (s, .crash)
        else (s.push (repeatList l length.toNat), .ok (.arr s.arrays.length))
      | none => (s, .crash)
    | _ => (s, .crash)
  | _ => (s, .nores)

/-- Go `OpAdd` (src/types.go lines 259-307). Int arithmetic wraps; the
Array/Array branch checks the joined length against 512 before allocating. -/
def OpAdd (_ctx : Ctx) (s : Store) (v v2 : VMValue) : Store × OpOutcome :=
  match v, v2 with
  | .int a, .int b => (s, .ok (.int (wrap64 (a + b))))
  | .int a, .float b => (s, .ok (.float ((a : ℚ) + b)))
  | .float a, .int b => (s, .ok (.float (a + (b : ℚ))))
  | .float a, .float b => (s, .ok (.float (a + b)))
  | .str a, .str b => (s, .ok (.str (a ++ b)))
  | .arr r1, .arr r2 =>
    match s.arrays.get? r1, s.arrays.get? r2 with
    | some l1, some l2 =>
      if l1.length + l2.length > 512 then (s, .err .arrayTooLarge)
      else (s.push (l1 ++ l2), .ok (.arr s.arrays.length))
    | _, _ => (s, .crash)
  | _, _ => (s, .nores)

/-- Go `OpSub` (src/types.go lines 309-332). -/
def OpSub (_ctx : Ctx) (s : Store) (v v2 : VMValue) : Store × OpOutcome :=
  match v, v2 with
  | .int a, .int b => (s, .ok (.int (wrap64 (a - b))))
  | .int a, .float b => (s, .ok (.float ((a : ℚ) - b)))
  | .float a, .int b => (s, .ok (.float (a - (b : ℚ))))
  | .float a, .float b => (s, .ok (.float (a - b)))
  | _, _ => (s, .nores)

/-- Go `OpMultiply` (src/types.go lines 334-362): numeric products, plus
the two array-repetition delegations to `ArrayRepeatTimesEx`. -/
def OpMultiply (ctx : Ctx) (s : Store) (v v2 : VMValue) : Store × OpOutcome :=
  match v, v2 with
  | .int a, .int b => (s, .ok (.int (wrap64 (a * b))))
  | .int a, .float b => (s, .ok (.float ((a : ℚ) * b)))
  | .int a, .arr r => ArrayRepeatTimesEx ctx s (.arr r) (.int a)
  | .float a, .int b => (s, .ok (.float (a * (b : ℚ))))
  | .float a, .float b => (s, .ok (.float (a * b)))
  | .arr r, w => ArrayRepeatTimesEx ctx s (.arr r) w
  | _, _ => (s, .nores)

/-- Go `OpDivide` (src/types.go lines 364-408): each numeric pairing checks
the divisor against exact zero and sets the DivideByZero error; no flag is
consulted. Int division truncates toward zero (Go `/`), with wrap-around at
`MinInt64 / -1`. -/
def OpDivide (_ctx : Ctx) (s : Store) (v v2 : VMValue) : Store × OpOutcome :=
  match v, v2 with
  | .int a, .int b =>
    if b = 0 then (s, .err .divideByZero)
    else (s, .ok (.int (wrap64 (a.tdiv b))))
  | .int a, .float b =>
    if b = 0 then (s, .err .divideByZero)
    else (s, .ok (.float ((a : ℚ) / b)))
  | .float a, .int b =>
    if b = 0 then (s, .err .divideByZero)
    else (s, .ok (.float (a / (b : ℚ))))
  | .float a, .float b =>
    if b = 0 then (s, .err .divideByZero)
    else (s, .ok (.float (a / b)))
  | _, _ => (s, .nores)

/-- Go `OpModulus` (src/types.go lines 410-421): defined only for Int%Int,
computed with Go's truncated remainder. There is no zero-divisor guard in the
source; Go's `%` panics at runtime on a zero divisor, modelled by `crash`. -/
def OpModulus (_ctx : Ctx) (s : Store) (v v2 : VMValue) : Store × OpOutcome :=
  match v, v2 with
  | .int a, .int b =>
    if b = 0 then (s, .crash) else (s, .ok (.int (a.tmod b)))
  | _, _ => (s, .nores)

/-- Go `OpPower` (src/types.go lines 423-446): computed through floating
`math.Pow`; the Int,Int case truncates the floating result back to int64. -/
def OpPower (_ctx : Ctx) (s : Store) (v v2 : VMValue) : Store × OpOutcome :=
  match v, v2 with
  | .int a, .int b => (s, .ok (.int (ratTrunc (mathPow (a : ℚ) (b : ℚ)))))
  | .int a, .float b => (s, .ok (.float (mathPow (a : ℚ) b)))
  | .float a, .int b => (s, .ok (.float (mathPow a (b : ℚ))))
  | .float a, .float b => (s, .ok (.float (mathPow a b)))
  | _, _ => (s, .nores)

/-- Go `OpCompLT` (src/types.go lines 456-475). -/
def OpCompLT (_ctx : Ctx) (s : Store) (v v2 : VMValue) : Store × OpOutcome :=
  match v, v2 with
  | .int a, .int b => (s, .ok (boolToVM (a < b)))
  | .int a, .float b => (s, .ok (boolToVM ((a : ℚ) < b)))
  | .float a, .int b => (s, .ok (boolToVM (a < (b : ℚ))))
  | .float a, .float b => (s, .ok (boolToVM (a < b)))
  | _, _ => (s, .nores)

/-- Go `OpCompLE` (src/types.go lines 477-496). -/
def OpCompLE (_ctx : Ctx) (s : Store) (v v2 : VMValue) : Store × OpOutcome :=
  match v, v2 with
  | .int a, .int b => (s, .ok (boolToVM (a ≤ b)))
  | .int a, .float b => (s, .ok (boolToVM ((a : ℚ) ≤ b)))
  | .float a, .int b => (s, .ok (boolToVM (a ≤ (b : ℚ))))
  | .float a, .float b => (s, .ok (boolToVM (a ≤ b)))
  | _, _ => (s, .nores)

/-- Payload comparison used by `OpCompEQ` when the tags are equal
(Go `v.Value == v2.Value`): value equality for scalars, handle (ref)
equality for container payloads. The `v == v2` pointer fast path of the
source is subsumed: in this model two handles with equal tag and payload
denote the same value, and with Float modelled as ℚ (no NaN) payload
equality agrees with the fast path on identical handles. -/
def payloadEq : VMValue → VMValue → Bool
  | .int a, .int b => a == b
  | .float a, .float b => a == b
  | .str a, .str b => a == b
  | .undefined, .undefined => true
  | .null, .null => true
  | .computed r1, .computed r2 => r1 == r2
  | .arr r1, .arr r2 => r1 == r2
  | .func r1, .func r2 => r1 == r2
  | .nfunc r1, .nfunc r2 => r1 == r2
  | _, _ => false

/-- Go `OpCompEQ` (src/types.go lines 498-520): equal tags compare payloads
with Go `==`; Int and Float cross-compare after widening; every other
cross-kind pair yields Int 0. Always returns a value, never an error. -/
def OpCompEQ (_ctx : Ctx) (s : Store) (v v2 : VMValue) : Store × OpOutcome :=
  if v.typeId = v2.typeId then (s, .ok (boolToVM (payloadEq v v2)))
  else
    match v, v2 with
    | .int a, .float b => (s, .ok (boolToVM ((a : ℚ) == b)))
    | .float a, .int b => (s, .ok (boolToVM (a == (b : ℚ))))
    | _, _ => (s, .ok (.int 0))

/-- Go `OpCompNE` (src/types.go lines 522-525): the boolean negation of
`OpCompEQ`'s truthiness. -/
def OpCompNE (ctx : Ctx) (s : Store) (v v2 : VMValue) : Store × OpOutcome :=
  match OpCompEQ ctx s v v2 with
  | (s', .ok r) => (s', .ok (boolToVM (!(AsBool r))))
  | other => other

/-- Go `OpCompGE` (src/types.go lines 527-546). -/
def OpCompGE (_ctx : Ctx) (s : Store) (v v2 : VMValue) : Store × OpOutcome :=
  match v, v2 with
  | .int a, .int b => (s, .ok (boolToVM (a ≥ b)))
  | .int a, .float b => (s, .ok (boolToVM ((a : ℚ) ≥ b)))
  | .float a, .int b => (s, .ok (boolToVM (a ≥ (b : ℚ))))
  | .float a, .float b => (s, .ok (boolToVM (a ≥ b)))
  | _, _ => (s, .nores)

/-- Go `OpCompGT` (src/types.go lines 548-567). -/
def OpCompGT (_ctx : Ctx) (s : Store) (v v2 : VMValue) : Store × OpOutcome :=
  match v, v2 with
  | .int a, .int b => (s, .ok (boolToVM (a > b)))
  | .int a, .float b => (s, .ok (boolToVM ((a : ℚ) > b)))
  | .float a, .int b => (s, .ok (boolToVM (a > (b : ℚ))))
  | .float a, .float b => (s, .ok (boolToVM (a > b)))
  | _, _ => (s, .nores)

/-- The operator dispatch table (Go `binOperator`, src/types.go lines 39-53):
indices 0-5 are the numeric/array arithmetic operators, 6-11 the
comparisons. -/
def binOperator : List (Ctx → Store → VMValue → VMValue → Store × OpOutcome) :=
  [OpAdd, OpSub, OpMultiply, OpDivide, OpModulus, OpPower,
   OpCompLT, OpCompLE, OpCompEQ, OpCompNE, OpCompGE, OpCompGT]

/-- Go `getClampRealIndex` (src/types.go lines 725-738): a negative index has
the length added once, then the result is clamped into `[0, length]`. -/
def getClampRealIndex (index length : ℤ) : ℤ :=
  let index := if index < 0 then length + index else index
  let index := if index < 0 then 0 else index
  if index > length then length else index

/-- Go `getRealIndex` (src/types.go lines 740-749): wrap-once indexing;
`none` models the IndexOutOfRange error being set. -/
def getRealIndex (index length : ℤ) : Option ℤ :=
  let index := if index < 0 then length + index else index
  if index ≥ length ∨ index < 0 then none else some index

/-- Go `ArrayGetItem` (src/types.go lines 751-762). -/
def ArrayGetItem (s : Store) (v : VMValue) (index : ℤ) :
    Store × OpOutcome :=
  match v with
  | .arr r =>
    match s.arrays.get? r with
    | some l =>
      match getRealIndex index (l.length : ℤ) with
      | some idx => (s, .ok (l.getD idx.toNat .undefined))
      | none => (s, .err .indexOutOfRange)
    | none => (s, .crash)
  | _ => (s, .err .typeMismatch)

/-- Go `ArraySetItem` (src/types.go lines 764-776): stores a clone of the
right-hand side in place through the array handle. -/
def ArraySetItem (s : Store) (v : VMValue) (index : ℤ) (val : VMValue) :
    Store × Bool × Option RErr :=
  match v with
  | .arr r =>
    match s.arrays.get? r with
    | some l =>
      match getRealIndex index (l.length : ℤ) with
      | some idx =>
        ({ s with arrays := s.arrays.set r (l.set idx.toNat (Clone val)) },
         true, none)
      | none => (s, false, some .indexOutOfRange)
    | none => (s, false, some .indexOutOfRange)
  | _ => (s, false, some .typeMismatch)

/-- Go `Length` (src/types.go lines 806-822): byte length for String, element
count for Array, error otherwise. -/
def lengthOf (s : Store) (v : VMValue) : Option ℤ :=
  match v with
  | .arr r => (s.arrays.get? r).map (fun l => (l.length : ℤ))
  | .str bs => some (bs.length : ℤ)
  | _ => none

/-- Go `GetSlice` (src/types.go lines 778-804): both bounds are clamped with
`getClampRealIndex`; if the clamped lower bound exceeds the clamped upper
bound it is reset to the upper bound; the half-open range is extracted from
the byte sequence (String) or the element list (Array, allocating a fresh
array for the result). -/
def GetSlice (_ctx : Ctx) (s : Store) (v : VMValue) (a b : ℤ) :
    Store × OpOutcome :=
  match lengthOf s v with
  | none => (s, .err .typeMismatch)
  | some length =>
    let va := getClampRealIndex a length
    let vb := getClampRealIndex b length
    let va := if va > vb then vb else va
    match v with
    | .str bs => (s, .ok (.str ((bs.drop va.toNat).take (vb - va).toNat)))
    | .arr r =>
      match s.arrays.get? r with
      | some l => (s.push ((l.drop va.toNat).take (vb - va).toNat),
                   .ok (.arr s.arrays.length))
      | none => (s, .crash)
    | _ => (s, .err .typeMismatch)

/-- Go `SetSlice` (src/types.go lines 853-889): requires the target and the
value to be Arrays, clamps both bounds the same way as `GetSlice`, and
replaces the range `[a, b)` in place with the value's elements; the loops
building `newArr` realize `take a ++ val ++ drop b`. Note there is no length
check here. -/
def SetSlice (_ctx : Ctx) (s : Store) (v : VMValue) (a b : ℤ)
    (val : VMValue) : Store × Bool × Option RErr :=
  match v with
  | .arr r =>
    match s.arrays.get? r with
    | some l =>
      match val with
      | .arr r2 =>
        match s.arrays.get? r2 with
        | some l2 =>
          let length := (l.length : ℤ)
          let va := getClampRealIndex a length
          let vb := getClampRealIndex b length
          let va := if va > vb then vb else va
          let newArr := l.take va.toNat ++ l2 ++ l.drop vb.toNat
          ({ s with arrays := s.arrays.set r newArr }, true, none)
        | none => (s, false, some .typeMismatch)
      | _ => (s, false, some .typeMismatch)
    | none => (s, false, some .typeMismatch)
  | _ => (s, false, some .typeMismatch)

/-- One step of the fold inside `ArrayFuncKeepHigh` (src/types.go lines
652-676): state is `(maxFloat, isFloat, isFirst)`; Int and Float elements
participate after widening to the float model, other kinds are skipped. -/
def khStep (st : ℚ × Bool × Bool) (v : VMValue) : ℚ × Bool × Bool :=
  match v with
  | .int i =>
    if st.2.2 then ((i : ℚ), st.2.1, false)
    else (if (i : ℚ) > st.1 then (i : ℚ) else st.1, st.2.1, false)
  | .float f =>
    if st.2.2 then (f, true, false)
    else (if f > st.1 then f else st.1, true, false)
  | _ => st

/-- One step of the fold inside `ArrayFuncKeepLow` (src/types.go lines
692-716); identical to `khStep` with the comparison reversed. -/
def klStep (st : ℚ × Bool × Bool) (v : VMValue) : ℚ × Bool × Bool :=
  match v with
  | .int i =>
    if st.2.2 then ((i : ℚ), st.2.1, false)
    else (if (i : ℚ) < st.1 then (i : ℚ) else st.1, st.2.1, false)
  | .float f =>
    if st.2.2 then (f, true, false)
    else (if f < st.1 then f else st.1, true, false)
  | _ => st

/-- Go `ArrayFuncKeepHigh` (src/types.go lines 645-683) on the element list:
the accumulator starts at `(0, false, true)`; the result is Float when any
Float element was seen, otherwise the float maximum is cast back to Int. -/
def arrayFuncKeepHigh (l : List VMValue) : VMValue :=
  let st := l.foldl khStep (0, false, true)
  if st.2.1 then .float st.1 else .int (ratTrunc st.1)

/-- Go `ArrayFuncKeepLow` (src/types.go lines 685-723) on the element list. -/
def arrayFuncKeepLow (l : List VMValue) : VMValue :=
  let st := l.foldl klStep (0, false, true)
  if st.2.1 then .float st.1 else .int (ratTrunc st.1)

/-- Go `CallFunc` (src/types.go lines 632-643): only Arrays have methods,
named `kh` and `kl`; everything else yields Undefined. The `.undefined` on a
dangling ref is unreachable for well-formed stores (Go's `ReadArray` cannot
fail on an Array-tagged value). -/
def CallFunc (_ctx : Ctx) (s : Store) (v : VMValue) (name : String)
    (_values : List VMValue) : VMValue :=
  match v with
  | .arr r =>
    match name with
    | "kh" => match s.arrays.get? r with
              | some l => arrayFuncKeepHigh l
              | none => .undefined
    | "kl" => match s.arrays.get? r with
              | some l => arrayFuncKeepLow l
              | none => .undefined
    | _ => .undefined
  | _ => .undefined

/-- Go `SetAttr` (src/types.go lines 589-601): only Computed values accept
attribute writes; the attribute map is created on first write, and a clone of
the stored value is inserted through the shared `ComputedData` handle. -/
def SetAttr (s : Store) (v : VMValue) (name : String) (val : VMValue) :
    Store × Option VMValue :=
  match v with
  | .computed r =>
    match s.computeds.get? r with
    | some cd =>
      let attrs := cd.Attrs.getD ⟨[]⟩
      let cd' := { cd with Attrs := some (attrs.put name (Clone val)) }
      ({ s with computeds := s.computeds.set r cd' }, some val)
    | none => (s, none)
  | _ => (s, none)

/-- Go `GetAttr` (src/types.go lines 603-630): a Computed reads its own
attribute map (missing map or missing key yields Undefined); a Function reads
the current context's attribute map; other kinds return nil (`none`). -/
def GetAttr (s : Store) (ctxAttrs : Option ValueMap) (v : VMValue)
    (name : String) : Option VMValue :=
  match v with
  | .computed r =>
    match s.computeds.get? r with
    | some cd => some ((cd.Attrs.bind (fun m => m.get name)).getD .undefined)
    | none => none
  | .func _ => some ((ctxAttrs.bind (fun m => m.get name)).getD .undefined)
  | _ => none

/-- The observable state of an evaluation context around a sub-evaluation:
its operation counter and error slot. -/
structure EvalCtx where
  numOpCount : ℤ
  error : Bool
  deriving DecidableEq

/-- Modelled from the spec: the child VM's actual run (`vm.Run` on a cache
miss, `vm.parser.Evaluate` on a cache hit) lives in the external
parser/interpreter, which is not under src/. A run is abstracted by its
observable outcome: the bytecode the compile pass produced (spec §4.4 "compile
the expression through the external parser and cache the resulting
bytecode"), the child's final `NumOpCount`, whether it errored, and the stack
top if the stack is nonempty. -/
structure SubRun where
  compiledCode : Bytecode
  finalOpCount : ℤ
  errored : Bool
  top : Option VMValue
  deriving DecidableEq

/-- Result of a sub-evaluation as seen by the caller. -/
structure SubEvalResult where
  parent : EvalCtx
  cd : ComputedData
  ret : Option VMValue
  compileInvoked : Bool
  deriving DecidableEq

/-- Go `ComputedExecute` (src/types.go lines 965-1005), with the child run
abstracted as a `SubRun`: the child is seeded with `parent.NumOpCount + 200`;
a missing bytecode cache is populated from the compile pass (and only then is
the parser's compile entry invoked); on child error the parent's error is set
and the parent's `NumOpCount` is NOT written back (the write-back at line 1003
is only reached on success); on success the parent count becomes the child's
final count and the return value is a clone of the stack top, or Undefined
for an empty stack. -/
def ComputedExecute (parent : EvalCtx) (cd : ComputedData) (run : SubRun) :
    SubEvalResult :=
  let _childEntry : ℤ := parent.numOpCount + 200
  let cached :=
    match cd.code with
    | none => ({ cd with code := some run.compiledCode }, true)
    | some _ => (cd, false)
  if run.errored then
    ⟨{ parent with error := true }, cached.1, none, cached.2⟩
  else
    ⟨{ parent with numOpCount := run.finalOpCount }, cached.1,
     some ((run.top.map Clone).getD .undefined), cached.2⟩

/-- Result of `FuncInvoke` as seen by the caller. -/
structure FuncInvokeResult where
  parent : EvalCtx
  fd : FunctionData
  ret : Option VMValue
  compileInvoked : Bool
  deriving DecidableEq

/-- Go `FuncInvoke` (src/types.go lines 1007-1058), with the child run
abstracted as a `SubRun`: arity mismatch errors before anything runs; the
child is seeded with `parent.NumOpCount + 100`; caching, error propagation
and the success write-back mirror `ComputedExecute`. -/
def FuncInvoke (parent : EvalCtx) (fd : FunctionData)
    (params : List VMValue) (run : SubRun) : FuncInvokeResult :=
  if fd.Params.length ≠ params.length then
    ⟨{ parent with error := true }, fd, none, false⟩
  else
    let _childEntry : ℤ := parent.numOpCount + 100
    let cached :=
      match fd.code with
      | none => ({ fd with code := some run.compiledCode }, true)
      | some _ => (fd, false)
    if run.errored then
      ⟨{ parent with error := true }, cached.1, none, cached.2⟩
    else
      ⟨{ parent with numOpCount := run.finalOpCount }, cached.1,
       some ((run.top.map Clone).getD .undefined), cached.2⟩

/-! ## Theorems -/

/-- C2: the claim states that division by exact zero with `IgnoreDiv0` set
sets no error and yields Undefined. `OpDivide` in src/types.go never consults
the flag: it sets the DivideByZero error and returns nil regardless of
`IgnoreDiv0`, contradicting the flag's own documentation (src/types.go line
59). This theorem evaluates the code at the failing inputs, for Int and Float
zero divisors and for both flag settings. -/
theorem opDivide_ignores_IgnoreDiv0 :
    OpDivide ⟨true⟩ ⟨[], []⟩ (.int 1) (.int 0)
      = (⟨[], []⟩, .err .divideByZero) ∧
    OpDivide ⟨true⟩ ⟨[], []⟩ (.float 1) (.float 0)
      = (⟨[], []⟩, .err .divideByZero) ∧
    OpDivide ⟨false⟩ ⟨[], []⟩ (.int 1) (.int 0)
      = (⟨[], []⟩, .err .divideByZero) := by
  refine ⟨by decide, ?_, by decide⟩
  simp [OpDivide]

/-- C10: `OpModulus` computes the Go remainder for Int%Int with no
zero-divisor guard: for a nonzero divisor it returns the truncated remainder
`a % b` and sets no error; a zero divisor is a Go runtime panic (not a
DivideByZero error); and no operand pair ever produces a DivideByZero
error. -/
theorem opModulus_no_zero_guard :
    (∀ (ctx : Ctx) (s : Store) (a b : ℤ), b ≠ 0 →
      OpModulus ctx s (.int a) (.int b) = (s, .ok (.int (a.tmod b)))) ∧
    (∀ (ctx : Ctx) (s : Store) (a : ℤ),
      OpModulus ctx s (.int a) (.int 0) = (s, .crash)) ∧
    (∀ (ctx : Ctx) (s : Store) (v v2 : VMValue),
      (OpModulus ctx s v v2).2 ≠ .err .divideByZero) := by
  refine ⟨?_, ?_, ?_⟩
  · intro ctx s a b hb
    simp [OpModulus, hb]
  · intro ctx s a
    simp [OpModulus]
  · intro ctx s v v2
    cases v <;> cases v2 <;> simp [OpModulus] <;> split <;> simp

/-- Witness for C10 at a = 7, b = 2 (Go: 7 % 2 = 1, no error). -/
theorem opModulus_no_zero_guard_witness :
    OpModulus ⟨false⟩ ⟨[], []⟩ (.int 7) (.int 2)
      = (⟨[], []⟩, .ok (.int ((7 : ℤ).tmod 2))) :=
  opModulus_no_zero_guard.1 ⟨false⟩ ⟨[], []⟩ 7 2 (by decide)

/-- C4 (amended): provided the abstract child run is seeded at the parent's
count plus the entry tax and its counter never decreases (spec invariant f),
a sub-evaluation that completes without error writes the child's final
`NumOpCount` back into the parent, so the parent's count ends at least the
child's count on entry (parent plus 200 for Computed, plus 100 for Function);
a sub-evaluation that ends in error leaves the parent's count unchanged. -/
theorem subEval_opCount_writeback :
    (∀ (parent : EvalCtx) (cd : ComputedData) (run : SubRun),
      run.finalOpCount ≥ parent.numOpCount + 200 →
      (run.errored = false →
        (ComputedExecute parent cd run).parent.numOpCount = run.finalOpCount ∧
        (ComputedExecute parent cd run).parent.numOpCount
          ≥ parent.numOpCount + 200) ∧
      (run.errored = true →
        (ComputedExecute parent cd run).parent.numOpCount
          = parent.numOpCount)) ∧
    (∀ (parent : EvalCtx) (fd : FunctionData) (params : List VMValue)
       (run : SubRun),
      run.finalOpCount ≥ parent.numOpCount + 100 →
      fd.Params.length = params.length →
      (run.errored = false →
        (FuncInvoke parent fd params run).parent.numOpCount
          = run.finalOpCount ∧
        (FuncInvoke parent fd params run).parent.numOpCount
          ≥ parent.numOpCount + 100) ∧
      (run.errored = true →
        (FuncInvoke parent fd params run).parent.numOpCount
          = parent.numOpCount)) := by
  constructor
  · intro parent cd run hmono
    constructor
    · intro herr
      simp [ComputedExecute, herr]
      exact hmono
    · intro herr
      simp [ComputedExecute, herr]
  · intro parent fd params run hmono harity
    constructor
    · intro herr
      simp [FuncInvoke, harity, herr]
      exact hmono
    · intro herr
      simp [FuncInvoke, harity, herr]

/-- Witness for C4's amended theorem: a successful Computed sub-evaluation
from parent count 0 with child final count 207 sets the parent count to 207,
which is at least the entry count 0 + 200. -/
theorem subEval_opCount_writeback_witness :
    (ComputedExecute ⟨0, false⟩ ⟨"x", none, none⟩
        ⟨[], 207, false, none⟩).parent.numOpCount = 207 ∧
    (ComputedExecute ⟨0, false⟩ ⟨"x", none, none⟩
        ⟨[], 207, false, none⟩).parent.numOpCount ≥ 0 + 200 :=
  (subEval_opCount_writeback.1 ⟨0, false⟩ ⟨"x", none, none⟩
    ⟨[], 207, false, none⟩ (by decide)).1 rfl

/-- C4 counterexample: with the parent at count 0, (i) a Computed child run
that errors (child entry count 200, so the claim demands a parent count of at
least 201 on return) leaves the parent count at 0, because the write-back at
src/types.go line 1003 sits after the early return on `vm.Error`; (ii) a
successful child run that performs no counted operation ends at its entry
count 200, so the parent count becomes exactly 200, not 201: the claimed
`+ 1` is not guaranteed either. -/
theorem subEval_opCount_claim_fails :
    ((ComputedExecute ⟨0, false⟩ ⟨"x", none, none⟩
        ⟨[], 250, true, none⟩).parent.numOpCount = 0 ∧
      ¬ ((0 : ℤ) ≥ 0 + 200 + 1)) ∧
    ((ComputedExecute ⟨0, false⟩ ⟨"1", none, none⟩
        ⟨[], 200, false, none⟩).parent.numOpCount = 200 ∧
      ¬ ((200 : ℤ) ≥ 0 + 200 + 1)) :=
  ⟨⟨rfl, by decide⟩, ⟨rfl, by decide⟩⟩

/-- C5: the first `ComputedExecute` on a Computed whose bytecode cache is
empty invokes the parser's compile entry and populates the cache
(whether or not the run errors); any execution of a Computed whose cache is
populated does not invoke the compile entry and leaves the cached bytecode
unchanged — so the second and every later execution reuses the cache. -/
theorem computedExecute_cache :
    (∀ (parent : EvalCtx) (cd : ComputedData) (run : SubRun),
      cd.code = none →
      (ComputedExecute parent cd run).compileInvoked = true ∧
      (ComputedExecute parent cd run).cd.code = some run.compiledCode) ∧
    (∀ (parent : EvalCtx) (cd : ComputedData) (run : SubRun),
      cd.code.isSome →
      (ComputedExecute parent cd run).compileInvoked = false ∧
      (ComputedExecute parent cd run).cd = cd) := by
  constructor
  · intro parent cd run hnone
    cases herr : run.errored <;>
      simp [ComputedExecute, hnone, herr]
  · intro parent cd run hsome
    rcases hc : cd.code with _ | bc
    · rw [hc] at hsome
      simp at hsome
    · cases herr : run.errored <;>
        simp [ComputedExecute, hc, herr]

/-- Witness for C5: a concrete first execution populates the cache with the
compiled bytecode and reports the compile entry as invoked. -/
theorem computedExecute_cache_witness :
    (ComputedExecute ⟨0, false⟩ ⟨"x", none, none⟩
        ⟨[1], 200, false, none⟩).compileInvoked = true ∧
    (ComputedExecute ⟨0, false⟩ ⟨"x", none, none⟩
        ⟨[1], 200, false, none⟩).cd.code = some [1] :=
  computedExecute_cache.1 ⟨0, false⟩ ⟨"x", none, none⟩
    ⟨[1], 200, false, none⟩ rfl

/-- C3 counterexample: two Arrays held by distinct handles (refs 0 and 1)
with equal element lists compare unequal under `OpCompEQ` — the tag-equal
path compares the payload handles, not the element structure, so the claimed
structural equality ("two distinct Arrays with equal elements compare
equal") fails. -/
theorem opCompEQ_distinct_equal_arrays :
    (⟨[[.int 1], [.int 1]], []⟩ : Store).arrays.get? 0
      = (⟨[[.int 1], [.int 1]], []⟩ : Store).arrays.get? 1 ∧
    (OpCompEQ ⟨false⟩ ⟨[[.int 1], [.int 1]], []⟩ (.arr 0) (.arr 1)).2
      = .ok (.int 0) := by
  exact ⟨rfl, by decide⟩

/-- C3 (amended): `OpCompEQ` returns Int 1 on identical values (the
same-handle fast path); on equal tags it compares the payloads with Go `==`,
which is value equality for the scalar kinds (Int, Float, String) but handle
equality for the container kinds (Array, Computed), so distinct Arrays with
equal elements compare unequal; an Int and a Float compare after widening to
Float; and every other cross-kind pair yields Int 0. -/
theorem opCompEQ_payload_semantics :
    (∀ (ctx : Ctx) (s : Store) (v : VMValue),
      (OpCompEQ ctx s v v).2 = .ok (.int 1)) ∧
    (∀ (ctx : Ctx) (s : Store) (a b : ℤ),
      (OpCompEQ ctx s (.int a) (.int b)).2 = .ok (boolToVM (a == b))) ∧
    (∀ (ctx : Ctx) (s : Store) (a b : ℚ),
      (OpCompEQ ctx s (.float a) (.float b)).2 = .ok (boolToVM (a == b))) ∧
    (∀ (ctx : Ctx) (s : Store) (a b : List Nat),
      (OpCompEQ ctx s (.str a) (.str b)).2 = .ok (boolToVM (a == b))) ∧
    (∀ (ctx : Ctx) (s : Store) (r1 r2 : Nat),
      (OpCompEQ ctx s (.arr r1) (.arr r2)).2 = .ok (boolToVM (r1 == r2)) ∧
      (OpCompEQ ctx s (.computed r1) (.computed r2)).2
        = .ok (boolToVM (r1 == r2))) ∧
    (∀ (ctx : Ctx) (s : Store) (i : ℤ) (q : ℚ),
      (OpCompEQ ctx s (.int i) (.float q)).2 = .ok (boolToVM ((i : ℚ) == q)) ∧
      (OpCompEQ ctx s (.float q) (.int i)).2
        = .ok (boolToVM (q == (i : ℚ)))) ∧
    (∀ (ctx : Ctx) (s : Store) (v v2 : VMValue),
      v.typeId ≠ v2.typeId →
      ¬ (v.isNumeric = true ∧ v2.isNumeric = true) →
      (OpCompEQ ctx s v v2).2 = .ok (.int 0)) := by
  refine ⟨?_, ?_, ?_, ?_, ?_, ?_, ?_⟩
  · intro ctx s v
    have hp : payloadEq v v = true := by
      cases v <;> simp [payloadEq]
    simp [OpCompEQ, hp, boolToVM]
  · intro ctx s a b
    simp [OpCompEQ, VMValue.typeId, payloadEq]
  · intro ctx s a b
    simp [OpCompEQ, VMValue.typeId, payloadEq]
  · intro ctx s a b
    simp [OpCompEQ, VMValue.typeId, payloadEq]
  · intro ctx s r1 r2
    constructor <;> simp [OpCompEQ, VMValue.typeId, payloadEq]
  · intro ctx s i q
    constructor <;> simp [OpCompEQ, VMValue.typeId]
  · intro ctx s v v2 hne hnum
    cases v <;> cases v2 <;>
      simp_all [OpCompEQ, VMValue.typeId, VMValue.isNumeric]

/-- Witness for C3's amended theorem: a String and Null are a cross-kind
non-numeric pair and compare to Int 0. -/
theorem opCompEQ_payload_semantics_witness :
    (OpCompEQ ⟨false⟩ ⟨[], []⟩ (.str []) .null).2 = .ok (.int 0) :=
  opCompEQ_payload_semantics.2.2.2.2.2.2 ⟨false⟩ ⟨[], []⟩ (.str []) .null
    (by decide) (by decide)

/-- C7: for each of the six arithmetic entries of the `binOperator` table and
Int/Float operands on which the operation is defined (it returns a value),
the result is Float exactly when at least one operand is Float, and Int
otherwise — in particular Int/Int division yields Int and Int^Int power
truncates back to Int. -/
theorem binOp_kind_widening :
    ∀ op ∈ binOperator.take 6, ∀ (ctx : Ctx) (s : Store) (a b : VMValue)
      (s' : Store) (v : VMValue),
      a.isNumeric = true → b.isNumeric = true →
      op ctx s a b = (s', .ok v) →
      v.isFloat = (a.isFloat || b.isFloat) := by
  intro op hop ctx s a b s' v ha hb h
  have hops : op = OpAdd ∨ op = OpSub ∨ op = OpMultiply ∨ op = OpDivide ∨
      op = OpModulus ∨ op = OpPower := by
    simpa [binOperator] using hop
  rcases hops with rfl | rfl | rfl | rfl | rfl | rfl <;>
    cases a <;> cases b <;>
      first
      | exact Bool.noConfusion ha
      | exact Bool.noConfusion hb
      | (simp only [OpAdd, OpSub, OpMultiply, OpDivide, OpModulus,
            OpPower] at h <;>
         (try split_ifs at h) <;>
         simp only [Prod.mk.injEq] at h <;>
         obtain ⟨rfl, h2⟩ := h <;>
         first
         | (rw [OpOutcome.ok.injEq] at h2
            subst h2
            simp [VMValue.isFloat])
         | exact OpOutcome.noConfusion h2)

/-- Witness for C7 at `OpAdd` on Int 1 and Int 2: the result kind is Int. -/
theorem binOp_kind_widening_witness :
    (VMValue.int (wrap64 (1 + 2))).isFloat
      = ((VMValue.int 1).isFloat || (VMValue.int 2).isFloat) :=
  binOp_kind_widening OpAdd (by simp [binOperator]) ⟨false⟩ ⟨[], []⟩
    (.int 1) (.int 2) ⟨[], []⟩ (.int (wrap64 (1 + 2))) rfl rfl rfl

/-- Helper: `wrap64` is the identity on the signed 64-bit range. -/
theorem wrap64_eq_self {z : ℤ} (h1 : -(2 ^ 63) ≤ z) (h2 : z < 2 ^ 63) :
    wrap64 z = z := by
  unfold wrap64
  rw [Int.emod_eq_of_lt (by omega) (by omega)]
  omega

/-- Helper: the repeat-loop builds exactly `n` elements. -/
theorem repeatList_length (l : List VMValue) (n : Nat) :
    (repeatList l n).length = n := by
  simp [repeatList]

/-- Helper: reading a freshly pushed array back from the store. -/
theorem store_push_get (s : Store) (L : List VMValue) :
    (s.push L).arrays.get? s.arrays.length = some L :=
  List.get?_concat_length s.arrays L

/-- C1 (amended): the two checked growth operations behave as claimed —
Array+Array concatenation fails with ArrayTooLarge when the joined length
exceeds 512 and otherwise allocates the concatenation (of length at most
512); Int*Array repetition fails with ArrayTooLarge when the (wrapped) int64
product exceeds 512 — in particular whenever the true product exceeds 512
without int64 overflow — and any array it allocates has at most 512 elements.
Slice assignment, the third growth operation of the claim, performs no such
check (see the counterexample). -/
theorem array_growth_checked :
    (∀ (ctx : Ctx) (s : Store) (r1 r2 : Nat) (l1 l2 : List VMValue),
      s.arrays.get? r1 = some l1 → s.arrays.get? r2 = some l2 →
      (512 < l1.length + l2.length →
        OpAdd ctx s (.arr r1) (.arr r2) = (s, .err .arrayTooLarge)) ∧
      (l1.length + l2.length ≤ 512 →
        OpAdd ctx s (.arr r1) (.arr r2)
          = (s.push (l1 ++ l2), .ok (.arr s.arrays.length)) ∧
        (l1 ++ l2).length ≤ 512)) ∧
    (∀ (ctx : Ctx) (s : Store) (r : Nat) (l : List VMValue) (t : ℤ),
      s.arrays.get? r = some l →
      (512 < wrap64 ((l.length : ℤ) * t) →
        ArrayRepeatTimesEx ctx s (.arr r) (.int t)
          = (s, .err .arrayTooLarge)) ∧
      (512 < (l.length : ℤ) * t → (l.length : ℤ) * t < 2 ^ 63 →
        ArrayRepeatTimesEx ctx s (.arr r) (.int t)
          = (s, .err .arrayTooLarge)) ∧
      (0 ≤ wrap64 ((l.length : ℤ) * t) → wrap64 ((l.length : ℤ) * t) ≤ 512 →
        ArrayRepeatTimesEx ctx s (.arr r) (.int t)
          = (s.push (repeatList l (wrap64 ((l.length : ℤ) * t)).toNat),
             .ok (.arr s.arrays.length)) ∧
        (repeatList l (wrap64 ((l.length : ℤ) * t)).toNat).length ≤ 512)) := by
  constructor
  · intro ctx s r1 r2 l1 l2 h1 h2
    constructor
    · intro hbig
      simp only [OpAdd, h1, h2]
      rw [if_pos (by omega)]
    · intro hsmall
      refine ⟨?_, by simpa using hsmall⟩
      simp only [OpAdd, h1, h2]
      rw [if_neg (by omega)]
  · intro ctx s r l t hr
    refine ⟨?_, ?_, ?_⟩
    · intro hbig
      simp only [ArrayRepeatTimesEx, hr]
      rw [if_pos (by omega)]
    · intro hbig hsmall
      have hw : wrap64 ((l.length : ℤ) * t) = (l.length : ℤ) * t :=
        wrap64_eq_self (by linarith) hsmall
      simp only [ArrayRepeatTimesEx, hr]
      rw [hw, if_pos (by omega)]
    · intro hlo hhi
      refine ⟨?_, by rw [repeatList_length]; omega⟩
      simp only [ArrayRepeatTimesEx, hr]
      rw [if_neg (by omega), if_neg (by omega)]

/-- Witness for C1's amended theorem: concatenating the one-element arrays at
refs 0 and 1 succeeds, allocating ref 2 with the two elements. -/
theorem array_growth_checked_witness :
    OpAdd ⟨false⟩ ⟨[[.int 1], [.int 2]], []⟩ (.arr 0) (.arr 1)
      = ((⟨[[.int 1], [.int 2]], []⟩ : Store).push ([.int 1] ++ [.int 2]),
         .ok (.arr 2)) ∧
    ([VMValue.int 1] ++ [VMValue.int 2]).length ≤ 512 :=
  (array_growth_checked.1 ⟨false⟩ ⟨[[.int 1], [.int 2]], []⟩ 0 1
    [.int 1] [.int 2] rfl rfl).2 (by decide)

/-- C1 counterexample: `SetSlice` has no 512-element check. Assigning a
513-element array into the empty slice `[0:0]` of a 1-element array succeeds
with no error and leaves the target array with 514 elements, exceeding the
claimed bound. -/
theorem setSlice_no_512_check :
    (SetSlice ⟨false⟩ ⟨[[.int 0], List.replicate 513 (.int 1)], []⟩
        (.arr 0) 0 0 (.arr 1)).2 = (true, none) ∧
    (((SetSlice ⟨false⟩ ⟨[[.int 0], List.replicate 513 (.int 1)], []⟩
        (.arr 0) 0 0 (.arr 1)).1.arrays.get? 0).getD []).length = 514 := by
  constructor
  · rfl
  · set_option maxRecDepth 10000 in decide

/-- The claim's slicing rule stated in the spec's own words (for the
refinement against the source's `GetSlice`): add `len` to a negative bound,
clamp each bound into `[0, len]`, reset the lower bound to the upper one when
it exceeds it, and take the half-open range. -/
def clampSpec (i len : ℤ) : ℤ :=
  min len (max 0 (if i < 0 then i + len else i))

/-- The claim's slice result in the spec's words (see `clampSpec`). -/
def sliceSpec {α : Type} (l : List α) (i j : ℤ) : List α :=
  let len := (l.length : ℤ)
  let a := clampSpec i len
  let b := clampSpec j len
  (l.take b.toNat).drop (min a b).toNat

/-- Helper: the source's sequential-if clamp equals the spec's min/max
clamp on a nonnegative length. -/
theorem getClampRealIndex_eq_clampSpec (i len : ℤ) (h : 0 ≤ len) :
    getClampRealIndex i len = clampSpec i len := by
  unfold getClampRealIndex clampSpec
  dsimp only
  split_ifs <;> omega

/-- Helper: the source's drop-then-take range extraction equals the spec's
take-then-drop form under the clamp bounds. -/
theorem drop_take_range {α : Type} (l : List α) (a b : ℤ)
    (h0 : 0 ≤ a) (hab : a ≤ b) :
    (l.drop a.toNat).take (b - a).toNat = (l.take b.toNat).drop a.toNat := by
  rw [List.drop_take]
  congr 1
  omega

/-- C6: slicing an Array or String first adds the length to each negative
bound, clamps both bounds into `[0, len]`, resets the lower bound to the
upper bound when it exceeds it, and returns exactly the elements (Array, as a
fresh allocation) or bytes (String) of the half-open clamped range. -/
theorem getSlice_clamp_rule :
    (∀ (ctx : Ctx) (s : Store) (bs : List Nat) (i j : ℤ),
      GetSlice ctx s (.str bs) i j = (s, .ok (.str (sliceSpec bs i j)))) ∧
    (∀ (ctx : Ctx) (s : Store) (r : Nat) (l : List VMValue) (i j : ℤ),
      s.arrays.get? r = some l →
      GetSlice ctx s (.arr r) i j
        = (s.push (sliceSpec l i j), .ok (.arr s.arrays.length))) := by
  have key : ∀ (α : Type) (l : List α) (i j : ℤ),
      ((l.drop (if getClampRealIndex i (l.length : ℤ) >
            getClampRealIndex j (l.length : ℤ)
          then getClampRealIndex j (l.length : ℤ)
          else getClampRealIndex i (l.length : ℤ)).toNat).take
        (getClampRealIndex j (l.length : ℤ) -
          (if getClampRealIndex i (l.length : ℤ) >
              getClampRealIndex j (l.length : ℤ)
            then getClampRealIndex j (l.length : ℤ)
            else getClampRealIndex i (l.length : ℤ))).toNat)
        = sliceSpec l i j := by
    intro α l i j
    have hlen : (0 : ℤ) ≤ (l.length : ℤ) := by positivity
    have hi := getClampRealIndex_eq_clampSpec i (l.length : ℤ) hlen
    have hj := getClampRealIndex_eq_clampSpec j (l.length : ℤ) hlen
    have hbounds : 0 ≤ clampSpec i (l.length : ℤ) ∧
        0 ≤ clampSpec j (l.length : ℤ) := by
      constructor <;> (unfold clampSpec; split_ifs <;> omega)
    rw [hi, hj]
    have hmin : (if clampSpec i (l.length : ℤ) > clampSpec j (l.length : ℤ)
        then clampSpec j (l.length : ℤ) else clampSpec i (l.length : ℤ))
        = min (clampSpec i (l.length : ℤ)) (clampSpec j (l.length : ℤ)) := by
      split_ifs <;> omega
    rw [hmin, sliceSpec]
    exact drop_take_range l _ _ (by omega) (by omega)
  constructor
  · intro ctx s bs i j
    simp only [GetSlice, lengthOf]
    rw [key]
  · intro ctx s r l i j hr
    simp only [GetSlice, lengthOf, hr, Option.map_some']
    rw [key]

/-- Witness for C6 on the array `[10, 20, 30]` at ref 0 with bounds
`[-2 : 99]`: the slice is the last two elements. -/
theorem getSlice_clamp_rule_witness :
    GetSlice ⟨false⟩ ⟨[[.int 10, .int 20, .int 30]], []⟩ (.arr 0) (-2) 99
      = ((⟨[[.int 10, .int 20, .int 30]], []⟩ : Store).push
          (sliceSpec [VMValue.int 10, .int 20, .int 30] (-2) 99),
         .ok (.arr 1)) :=
  getSlice_clamp_rule.2 ⟨false⟩ ⟨[[.int 10, .int 20, .int 30]], []⟩ 0
    [.int 10, .int 20, .int 30] (-2) 99 rfl

/-- Helper: looking up a key after `put` yields the stored value. -/
theorem find_putEntries (es : List (String × VMValue)) (k : String)
    (v : VMValue) :
    ((putEntries es k v).find? (fun e => e.1 = k)).map (·.2) = some v := by
  induction es with
  | nil => simp [putEntries, List.find?]
  | cons e rest ih =>
    by_cases he : e.1 = k
    · simp [putEntries, he, List.find?]
    · simp only [putEntries, if_neg he, List.find?]
      rw [decide_eq_false he]
      exact ih

/-- Helper: `ValueMap.get` after `ValueMap.put` of the same key. -/
theorem valueMap_get_put (m : ValueMap) (k : String) (v : VMValue) :
    (m.put k v).get k = some v :=
  find_putEntries m.entries k v

/-- C9: `Clone` copies the tag and the payload handle verbatim (on the
mathematical value the shallow copy is the identity): scalar payloads are
copied by value, and container payloads remain shared by handle — writing an
element through a cloned Array handle is visible when reading through the
original handle, and setting an attribute through a cloned Computed handle is
visible through the original handle. -/
theorem clone_shallow_sharing :
    (∀ v : VMValue, (Clone v).typeId = v.typeId ∧ Clone v = v) ∧
    (∀ (s : Store) (r : Nat) (l : List VMValue) (i idx : ℤ) (w : VMValue),
      s.arrays.get? r = some l →
      getRealIndex i (l.length : ℤ) = some idx →
      (ArraySetItem s (Clone (.arr r)) i w).2 = (true, none) ∧
      (ArraySetItem s (Clone (.arr r)) i w).1.arrays.get? r
        = some (l.set idx.toNat (Clone w))) ∧
    (∀ (s : Store) (r : Nat) (cd : ComputedData) (n : String) (w : VMValue),
      s.computeds.get? r = some cd →
      GetAttr (SetAttr s (Clone (.computed r)) n w).1 none (.computed r) n
        = some (Clone w)) := by
  refine ⟨fun v => ⟨rfl, rfl⟩, ?_, ?_⟩
  · intro s r l i idx w hr hidx
    have hrlt : r < s.arrays.length := by
      rw [List.get?_eq_some] at hr
      exact hr.1
    constructor
    · simp only [ArraySetItem, Clone, hr, hidx]
    · simp only [ArraySetItem, Clone, hr, hidx]
      exact List.get?_set_eq_of_lt _ hrlt
  · intro s r cd n w hr
    have hrlt : r < s.computeds.length := by
      rw [List.get?_eq_some] at hr
      exact hr.1
    simp only [SetAttr, GetAttr, Clone, hr]
    rw [List.get?_set_eq_of_lt _ hrlt]
    simp [valueMap_get_put]

/-- Witness for C9: on a store with one Computed at ref 0, setting attribute
`a` through a clone of the handle is read back through the original handle. -/
theorem clone_shallow_sharing_witness :
    GetAttr (SetAttr (⟨[], [⟨"x", none, none⟩]⟩ : Store)
        (Clone (.computed 0)) "a" (.int 9)).1 none (.computed 0) "a"
      = some (Clone (.int 9)) :=
  clone_shallow_sharing.2.2 ⟨[], [⟨"x", none, none⟩]⟩ 0 ⟨"x", none, none⟩
    "a" (.int 9) rfl

/-- Helper: truncation is the identity on integral rationals. -/
theorem ratTrunc_intCast (i : ℤ) : ratTrunc (i : ℚ) = i := by
  simp [ratTrunc, Rat.num_intCast, Rat.den_intCast, Int.tdiv_one]

/-- Helper: one `kh` fold step on a numeric element with the first-element
flag cleared keeps the running maximum. -/
theorem khStep_numeric (m : ℚ) (fl : Bool) (v : VMValue)
    (h : v.isNumeric = true) :
    khStep (m, fl, false) v
      = (if v.numCast > m then v.numCast else m, fl || v.isFloat, false) := by
  cases v <;>
    simp_all [khStep, VMValue.isNumeric, VMValue.numCast, VMValue.isFloat]

/-- Helper: one `kh` fold step on a numeric element with the first-element
flag set installs the element. -/
theorem khStep_first (fl : Bool) (v : VMValue) (h : v.isNumeric = true) :
    khStep (0, fl, true) v = (v.numCast, fl || v.isFloat, false) := by
  cases v <;>
    simp_all [khStep, VMValue.isNumeric, VMValue.numCast, VMValue.isFloat]

/-- Helper: the `kh` fold over numeric elements, from a non-first state,
computes the running maximum, the float flag as a disjunction, and keeps the
first-element flag cleared; the maximum is the seed or some element. -/
theorem khFold_spec (xs : List VMValue) (m : ℚ) (fl : Bool)
    (hnum : ∀ v ∈ xs, v.isNumeric = true) :
    (xs.foldl khStep (m, fl, false)).2.2 = false ∧
    (xs.foldl khStep (m, fl, false)).2.1 = (fl || xs.any VMValue.isFloat) ∧
    m ≤ (xs.foldl khStep (m, fl, false)).1 ∧
    (∀ v ∈ xs, v.numCast ≤ (xs.foldl khStep (m, fl, false)).1) ∧
    ((xs.foldl khStep (m, fl, false)).1 = m ∨
      ∃ v ∈ xs, v.numCast = (xs.foldl khStep (m, fl, false)).1) := by
  induction xs generalizing m fl with
  | nil => simp
  | cons x rest ih =>
    have hx : x.isNumeric = true := hnum x (by simp)
    have hrest : ∀ v ∈ rest, v.isNumeric = true := fun v hv =>
      hnum v (by simp [hv])
    rw [List.foldl_cons, khStep_numeric m fl x hx]
    obtain ⟨h1, h2, h3, h4, h5⟩ :=
      ih (if x.numCast > m then x.numCast else m) (fl || x.isFloat) hrest
    refine ⟨h1, ?_, ?_, ?_, ?_⟩
    · rw [h2]
      simp [Bool.or_assoc]
    · refine le_trans ?_ h3
      split_ifs <;> linarith
    · intro v hv
      rcases List.mem_cons.mp hv with rfl | hv'
      · refine le_trans ?_ h3
        split_ifs <;> linarith
      · exact h4 v hv'
    · rcases h5 with heq | ⟨v, hv, hveq⟩
      · by_cases hc : x.numCast > m
        · refine Or.inr ⟨x, by simp, ?_⟩
          rw [heq, if_pos hc]
        · refine Or.inl ?_
          rw [heq, if_neg hc]
      · exact Or.inr ⟨v, by simp [hv], hveq⟩

/-- Helper: `ArrayFuncKeepHigh` on a nonempty all-numeric list returns the
maximum under Int-to-Float widening; the result is Float exactly when some
element is, and otherwise it is an extremal Int element of the list. -/
theorem arrayFuncKeepHigh_spec (l : List VMValue) (hne : l ≠ [])
    (hnum : ∀ v ∈ l, v.isNumeric = true) :
    (arrayFuncKeepHigh l).isFloat = l.any VMValue.isFloat ∧
    (∀ v ∈ l, v.numCast ≤ (arrayFuncKeepHigh l).numCast) ∧
    (∃ v ∈ l, v.numCast = (arrayFuncKeepHigh l).numCast) ∧
    (l.any VMValue.isFloat = false → arrayFuncKeepHigh l ∈ l) := by
  obtain ⟨x, xs, rfl⟩ := List.exists_cons_of_ne_nil hne
  have hx : x.isNumeric = true := hnum x (by simp)
  have hxs : ∀ v ∈ xs, v.isNumeric = true := fun v hv => hnum v (by simp [hv])
  have hres : arrayFuncKeepHigh (x :: xs)
      = (if (xs.foldl khStep (x.numCast, x.isFloat, false)).2.1
         then VMValue.float (xs.foldl khStep (x.numCast, x.isFloat, false)).1
         else VMValue.int
           (ratTrunc (xs.foldl khStep (x.numCast, x.isFloat, false)).1)) := by
    unfold arrayFuncKeepHigh
    rw [List.foldl_cons, khStep_first false x hx, Bool.false_or]
  obtain ⟨h1, h2, h3, h4, h5⟩ := khFold_spec xs x.numCast x.isFloat hxs
  set st := xs.foldl khStep (x.numCast, x.isFloat, false) with hst
  have hany : (x :: xs).any VMValue.isFloat = st.2.1 := by
    rw [h2]
    simp
  have hexists : ∃ v ∈ x :: xs, v.numCast = st.1 := by
    rcases h5 with heq | ⟨v, hv, hveq⟩
    · exact ⟨x, by simp, heq.symm⟩
    · exact ⟨v, by simp [hv], hveq⟩
  rw [hres]
  rcases Bool.eq_false_or_eq_true st.2.1 with hfl | hfl
  · -- some Float element: the result is the Float maximum
    rw [hfl, if_pos rfl]
    refine ⟨?_, ?_, ?_, ?_⟩
    · rw [hany, hfl]
      rfl
    · intro w hw
      rcases List.mem_cons.mp hw with rfl | hw'
      · exact h3
      · exact h4 w hw'
    · simpa [VMValue.numCast] using hexists
    · intro habs
      rw [hany, hfl] at habs
      exact Bool.noConfusion habs
  · -- no Float element: the result is the extremal Int element
    rw [hfl, if_neg (by simp)]
    have hnofl : ∀ v ∈ x :: xs, v.isFloat = false := by
      intro v hv
      cases hb : v.isFloat
      · rfl
      · exfalso
        have : (x :: xs).any VMValue.isFloat = true :=
          List.any_eq_true.mpr ⟨v, hv, hb⟩
        rw [hany, hfl] at this
        exact Bool.noConfusion this
    obtain ⟨v, hv, hveq⟩ := hexists
    have hb : v.isFloat = false := hnofl v hv
    have hn : v.isNumeric = true := hnum v hv
    have hvint : ∃ iv : ℤ, v = .int iv := by
      rcases v with iv | q | sl | u | nl | cr | ar | fr | nr
      · exact ⟨iv, rfl⟩
      · exact Bool.noConfusion hb
      · exact Bool.noConfusion hn
      · exact Bool.noConfusion hn
      · exact Bool.noConfusion hn
      · exact Bool.noConfusion hn
      · exact Bool.noConfusion hn
      · exact Bool.noConfusion hn
      · exact Bool.noConfusion hn
    obtain ⟨iv, rfl⟩ := hvint
    have hcast : (iv : ℚ) = st.1 := hveq
    have htr : ratTrunc st.1 = iv := by
      rw [← hcast, ratTrunc_intCast]
    refine ⟨?_, ?_, ?_, ?_⟩
    · rw [hany, hfl]
      rfl
    · intro w hw
      have hwle : w.numCast ≤ st.1 := by
        rcases List.mem_cons.mp hw with rfl | hw'
        · exact h3
        · exact h4 w hw'
      show w.numCast ≤ ((ratTrunc st.1 : ℤ) : ℚ)
      rw [htr, hcast]
      exact hwle
    · refine ⟨.int iv, hv, ?_⟩
      show (iv : ℚ) = ((ratTrunc st.1 : ℤ) : ℚ)
      rw [htr]
    · intro _
      rw [htr]
      exact hv

/-- Helper: one `kl` fold step on a numeric element with the first-element
flag cleared keeps the running minimum. -/
theorem klStep_numeric (m : ℚ) (fl : Bool) (v : VMValue)
    (h : v.isNumeric = true) :
    klStep (m, fl, false) v
      = (if v.numCast < m then v.numCast else m, fl || v.isFloat, false) := by
  cases v <;>
    simp_all [klStep, VMValue.isNumeric, VMValue.numCast, VMValue.isFloat]

/-- Helper: one `kl` fold step on a numeric element with the first-element
flag set installs the element. -/
theorem klStep_first (fl : Bool) (v : VMValue) (h : v.isNumeric = true) :
    klStep (0, fl, true) v = (v.numCast, fl || v.isFloat, false) := by
  cases v <;>
    simp_all [klStep, VMValue.isNumeric, VMValue.numCast, VMValue.isFloat]

/-- Helper: the `kl` fold over numeric elements, from a non-first state,
computes the running minimum; dual of `khFold_spec`. -/
theorem klFold_spec (xs : List VMValue) (m : ℚ) (fl : Bool)
    (hnum : ∀ v ∈ xs, v.isNumeric = true) :
    (xs.foldl klStep (m, fl, false)).2.2 = false ∧
    (xs.foldl klStep (m, fl, false)).2.1 = (fl || xs.any VMValue.isFloat) ∧
    (xs.foldl klStep (m, fl, false)).1 ≤ m ∧
    (∀ v ∈ xs, (xs.foldl klStep (m, fl, false)).1 ≤ v.numCast) ∧
    ((xs.foldl klStep (m, fl, false)).1 = m ∨
      ∃ v ∈ xs, v.numCast = (xs.foldl klStep (m, fl, false)).1) := by
  induction xs generalizing m fl with
  | nil => simp
  | cons x rest ih =>
    have hx : x.isNumeric = true := hnum x (by simp)
    have hrest : ∀ v ∈ rest, v.isNumeric = true := fun v hv =>
      hnum v (by simp [hv])
    rw [List.foldl_cons, klStep_numeric m fl x hx]
    obtain ⟨h1, h2, h3, h4, h5⟩ :=
      ih (if x.numCast < m then x.numCast else m) (fl || x.isFloat) hrest
    refine ⟨h1, ?_, ?_, ?_, ?_⟩
    · rw [h2]
      simp [Bool.or_assoc]
    · refine le_trans h3 ?_
      split_ifs <;> linarith
    · intro v hv
      rcases List.mem_cons.mp hv with rfl | hv'
      · refine le_trans h3 ?_
        split_ifs <;> linarith
      · exact h4 v hv'
    · rcases h5 with heq | ⟨v, hv, hveq⟩
      · by_cases hc : x.numCast < m
        · refine Or.inr ⟨x, by simp, ?_⟩
          rw [heq, if_pos hc]
        · refine Or.inl ?_
          rw [heq, if_neg hc]
      · exact Or.inr ⟨v, by simp [hv], hveq⟩

/-- Helper: `ArrayFuncKeepLow` on a nonempty all-numeric list returns the
minimum under Int-to-Float widening; dual of `arrayFuncKeepHigh_spec`. -/
theorem arrayFuncKeepLow_spec (l : List VMValue) (hne : l ≠ [])
    (hnum : ∀ v ∈ l, v.isNumeric = true) :
    (arrayFuncKeepLow l).isFloat = l.any VMValue.isFloat ∧
    (∀ v ∈ l, (arrayFuncKeepLow l).numCast ≤ v.numCast) ∧
    (∃ v ∈ l, v.numCast = (arrayFuncKeepLow l).numCast) ∧
    (l.any VMValue.isFloat = false → arrayFuncKeepLow l ∈ l) := by
  obtain ⟨x, xs, rfl⟩ := List.exists_cons_of_ne_nil hne
  have hx : x.isNumeric = true := hnum x (by simp)
  have hxs : ∀ v ∈ xs, v.isNumeric = true := fun v hv => hnum v (by simp [hv])
  have hres : arrayFuncKeepLow (x :: xs)
      = (if (xs.foldl klStep (x.numCast, x.isFloat, false)).2.1
         then VMValue.float (xs.foldl klStep (x.numCast, x.isFloat, false)).1
         else VMValue.int
           (ratTrunc (xs.foldl klStep (x.numCast, x.isFloat, false)).1)) := by
    unfold arrayFuncKeepLow
    rw [List.foldl_cons, klStep_first false x hx, Bool.false_or]
  obtain ⟨h1, h2, h3, h4, h5⟩ := klFold_spec xs x.numCast x.isFloat hxs
  set st := xs.foldl klStep (x.numCast, x.isFloat, false) with hst
  have hany : (x :: xs).any VMValue.isFloat = st.2.1 := by
    rw [h2]
    simp
  have hexists : ∃ v ∈ x :: xs, v.numCast = st.1 := by
    rcases h5 with heq | ⟨v, hv, hveq⟩
    · exact ⟨x, by simp, heq.symm⟩
    · exact ⟨v, by simp [hv], hveq⟩
  rw [hres]
  rcases Bool.eq_false_or_eq_true st.2.1 with hfl | hfl
  · rw [hfl, if_pos rfl]
    refine ⟨?_, ?_, ?_, ?_⟩
    · rw [hany, hfl]
      rfl
    · intro w hw
      rcases List.mem_cons.mp hw with rfl | hw'
      · exact h3
      · exact h4 w hw'
    · simpa [VMValue.numCast] using hexists
    · intro habs
      rw [hany, hfl] at habs
      exact Bool.noConfusion habs
  · rw [hfl, if_neg (by simp)]
    have hnofl : ∀ v ∈ x :: xs, v.isFloat = false := by
      intro v hv
      cases hb : v.isFloat
      · rfl
      · exfalso
        have : (x :: xs).any VMValue.isFloat = true :=
          List.any_eq_true.mpr ⟨v, hv, hb⟩
        rw [hany, hfl] at this
        exact Bool.noConfusion this
    obtain ⟨v, hv, hveq⟩ := hexists
    have hb : v.isFloat = false := hnofl v hv
    have hn : v.isNumeric = true := hnum v hv
    have hvint : ∃ iv : ℤ, v = .int iv := by
      rcases v with iv | q | sl | u | nl | cr | ar | fr | nr
      · exact ⟨iv, rfl⟩
      · exact Bool.noConfusion hb
      · exact Bool.noConfusion hn
      · exact Bool.noConfusion hn
      · exact Bool.noConfusion hn
      · exact Bool.noConfusion hn
      · exact Bool.noConfusion hn
      · exact Bool.noConfusion hn
      · exact Bool.noConfusion hn
    obtain ⟨iv, rfl⟩ := hvint
    have hcast : (iv : ℚ) = st.1 := hveq
    have htr : ratTrunc st.1 = iv := by
      rw [← hcast, ratTrunc_intCast]
    refine ⟨?_, ?_, ?_, ?_⟩
    · rw [hany, hfl]
      rfl
    · intro w hw
      have hwle : st.1 ≤ w.numCast := by
        rcases List.mem_cons.mp hw with rfl | hw'
        · exact h3
        · exact h4 w hw'
      show ((ratTrunc st.1 : ℤ) : ℚ) ≤ w.numCast
      rw [htr, hcast]
      exact hwle
    · refine ⟨.int iv, hv, ?_⟩
      show (iv : ℚ) = ((ratTrunc st.1 : ℤ) : ℚ)
      rw [htr]
    · intro _
      rw [htr]
      exact hv

/-- C8: on an Array with at least one element, all of them Int or Float, the
method calls `kh` and `kl` return the maximum and minimum element
respectively, comparing Int elements after widening to Float; the result kind
is Float exactly when at least one element is Float, and otherwise the result
is cast back to Int and is an extremal Int element of the array. -/
theorem callFunc_kh_kl_extremal :
    ∀ (ctx : Ctx) (s : Store) (r : Nat) (l : List VMValue),
      s.arrays.get? r = some l → l ≠ [] →
      (∀ v ∈ l, v.isNumeric = true) →
      ((CallFunc ctx s (.arr r) "kh" []).isFloat = l.any VMValue.isFloat ∧
       (∀ v ∈ l, v.numCast ≤ (CallFunc ctx s (.arr r) "kh" []).numCast) ∧
       (∃ v ∈ l, v.numCast = (CallFunc ctx s (.arr r) "kh" []).numCast) ∧
       (l.any VMValue.isFloat = false → CallFunc ctx s (.arr r) "kh" [] ∈ l)) ∧
      ((CallFunc ctx s (.arr r) "kl" []).isFloat = l.any VMValue.isFloat ∧
       (∀ v ∈ l, (CallFunc ctx s (.arr r) "kl" []).numCast ≤ v.numCast) ∧
       (∃ v ∈ l, v.numCast = (CallFunc ctx s (.arr r) "kl" []).numCast) ∧
       (l.any VMValue.isFloat = false →
         CallFunc ctx s (.arr r) "kl" [] ∈ l)) := by
  intro ctx s r l hr hne hnum
  have hkh : CallFunc ctx s (.arr r) "kh" [] = arrayFuncKeepHigh l := by
    simp only [CallFunc, hr]
  have hkl : CallFunc ctx s (.arr r) "kl" [] = arrayFuncKeepLow l := by
    simp only [CallFunc, hr]
  rw [hkh, hkl]
  exact ⟨arrayFuncKeepHigh_spec l hne hnum, arrayFuncKeepLow_spec l hne hnum⟩

/-- Witness for C8 on the all-Int array `[1, 3, 2]` at ref 0: `kh` returns an
element of the array (namely the Int maximum). -/
theorem callFunc_kh_kl_extremal_witness :
    CallFunc ⟨false⟩ ⟨[[.int 1, .int 3, .int 2]], []⟩ (.arr 0) "kh" []
      ∈ [VMValue.int 1, .int 3, .int 2] :=
  ((callFunc_kh_kl_extremal ⟨false⟩ ⟨[[.int 1, .int 3, .int 2]], []⟩ 0
      [.int 1, .int 3, .int 2] rfl (by decide) (by decide)).1).2.2.2 (by decide)

end DiceScript
